import Mathlib

/-!
Verification of the cacao_flower_microbiome data-wrangling scripts.

The main subject is `create_mapping_files` from
`src/qiime2/scripts/03_creating_separate_stacks_mapping_files.py`:
it reads a tab-separated metadata table, groups valid rows by the
`sublibrary_id` column, derives two tag-mapping records per valid row
(one 16S, one ITS1), and writes one `<sublibrary_id>_tags.tsv` file per
group, iterating groups in sorted key order.

Strings are modelled as `List Char` (`Str`), Python lines and fields as
such lists, and the filesystem side effects as an explicit association
of file names to contents.  The model follows the Python source line by
line; statistics printing is ignored (it produces no data).
-/

namespace CacaoFM

/-- A Python string, modelled as its list of characters. -/
abbrev Str := List Char

/-- Whitespace characters recognised by Python `str.strip()` (ASCII range,
which covers every character the scripts can meet in their TSV inputs). -/
def isPySpace (c : Char) : Bool :=
  c = ' ' || c = '\t' || c = '\n' || c = '\r' || c = '\x0b' || c = '\x0c'

/-- Python `s.rstrip()`: remove trailing whitespace. -/
def pyRstrip (s : Str) : Str :=
  (s.reverse.dropWhile isPySpace).reverse

/-- Python `s.strip()` as used at line 34 of the script: remove leading and
trailing whitespace. -/
def pyStrip (s : Str) : Str :=
  pyRstrip (s.dropWhile isPySpace)

/-- Python `line.split('\t')` (line 58 of the script): split on every tab,
keeping empty fields; the result is always nonempty. -/
def splitOnTab : Str → List Str
  | [] => [[]]
  | c :: rest =>
    let r := splitOnTab rest
    if c = '\t' then [] :: r
    else (c :: r.headI) :: r.tail

/-- One output record of the mapping file (lines 83-93 of the script). -/
structure OutputRecord where
  forward_tag : Str
  reverse_tag : Str
  sample_name : Str
deriving DecidableEq

/-- Suffix appended to `sample_id` for the 16S record (line 86). -/
def suffix16S : Str := "_16S".toList

/-- Suffix appended to `sample_id` for the ITS1 record (line 92). -/
def suffixITS1 : Str := "_ITS1".toList

/-- The sublibrary dictionary: an insertion-ordered association of
`sublibrary_id` keys to accumulated records (Python dict at line 55). -/
abbrev Groups := List (Str × List OutputRecord)

/-- Append records to the group of key `k`, creating the group at the end
when the key is new (lines 73-74 and the two `append` calls). -/
def addToGroup : Groups → Str → List OutputRecord → Groups
  | [], k, rs => [(k, rs)]
  | (k₀, rs₀) :: t, k, rs =>
    if k₀ = k then (k₀, rs₀ ++ rs) :: t else (k₀, rs₀) :: addToGroup t k rs

/-- Processing of one data line (loop body, lines 57-93): split on tab, skip
short rows, skip rows with empty `sample_id` or `sublibrary_id`, otherwise
append the 16S and the ITS1 record to the sublibrary group of the row. -/
def processLine (subs : Groups) (line : Str) : Groups :=
  let columns := splitOnTab line
  if columns.length < 10 then subs
  else if columns.getD 0 [] = [] ∨ columns.getD 1 [] = [] then subs
  else addToGroup subs (columns.getD 1 [])
    [ { forward_tag := columns.getD 3 [], reverse_tag := columns.getD 5 [],
        sample_name := columns.getD 0 [] ++ suffix16S },
      { forward_tag := columns.getD 7 [], reverse_tag := columns.getD 9 [],
        sample_name := columns.getD 0 [] ++ suffixITS1 } ]

/-- Data lines extracted from the lines after the header (line 34 of the
script): each line is stripped, blank lines are dropped. -/
def dataLines (rest : List Str) : List Str :=
  rest.filterMap (fun l => if pyStrip l = [] then none else some (pyStrip l))

/-- The grouping pass over all data lines (lines 55-93). -/
def buildSublibraries (data : List Str) : Groups :=
  data.foldl processLine []

/-- Lexicographic comparison of strings by code point, the order used by
Python `sorted` on the `sublibrary_id` keys (line 100). -/
def strLe : Str → Str → Bool
  | [], _ => true
  | _ :: _, [] => false
  | a :: s, b :: t =>
    if a.toNat < b.toNat then true
    else if b.toNat < a.toNat then false
    else strLe s t

/-- Insert one keyed group into a key-sorted list of groups. -/
def insertPair (x : Str × List OutputRecord) : Groups → Groups
  | [] => [x]
  | y :: t => if strLe x.1 y.1 then x :: y :: t else y :: insertPair x t

/-- Sort the groups by key, modelling `sorted(sublibraries.keys())` at
line 100 (keys are distinct, so sorting pairs by key is the same as
iterating sorted keys and looking each one up). -/
def sortPairs (l : Groups) : Groups :=
  l.foldr insertPair []

/-- Render one record as one output line (without the trailing newline):
`forward_tag<TAB>reverse_tag<TAB>sample_name` (line 112). -/
def renderRecord (r : OutputRecord) : Str :=
  r.forward_tag ++ '\t' :: r.reverse_tag ++ '\t' :: r.sample_name

/-- Name suffix of every output file (line 107). -/
def tagsSuffix : Str := "_tags.tsv".toList

/-- The groups of a run, in the ascending key order in which their files
are written (line 100). -/
def sortedGroups (rest : List Str) : Groups :=
  sortPairs (buildSublibraries (dataLines rest))

/-- The ordered sequence of file writes produced from the lines after the
header: one `(file name, file lines)` pair per group, in ascending key
order (lines 100-112). -/
def outputWrites (rest : List Str) : List (Str × List Str) :=
  (sortedGroups rest).map (fun p => (p.1 ++ tagsSuffix, p.2.map renderRecord))

/-- Outcome of one run of `create_mapping_files`.  `missingInput` is the
caught `FileNotFoundError` (lines 26-28: print and return).  `indexError`
is the uncaught `IndexError` raised by `lines[0]` at line 33 when the file
has no lines at all.  `completed` carries the ordered file writes. -/
inductive RunResult where
  | missingInput
  | indexError
  | completed (writes : List (Str × List Str))
deriving DecidableEq

/-- The whole transform, `create_mapping_files`.  The input is `none` when
the input path does not exist, otherwise the list of raw lines read by
`readlines()`.  The header (line 0) is only echoed to the console, so the
writes depend only on the remaining lines. -/
def create_mapping_files : Option (List Str) → RunResult
  | none => RunResult.missingInput
  | some [] => RunResult.indexError
  | some (_ :: rest) => RunResult.completed (outputWrites rest)

/-- The file writes a run performed (none unless the run completed). -/
def runWrites : RunResult → List (Str × List Str)
  | RunResult.completed ws => ws
  | _ => []

/-- Whether the run reached `os.makedirs` (line 51): only a completed run
does, since the missing-input return (line 28) and the `lines[0]` index
error (line 33) both happen before line 51. -/
def createsOutputDir : RunResult → Bool
  | RunResult.completed _ => true
  | _ => false

/-- Render the full byte content of one output file: each line followed by
a newline, concatenated (the `file.write` calls at line 112). -/
def renderFile (ls : List Str) : Str :=
  (ls.map (fun l => l ++ ['\n'])).flatten

/-- Apply an ordered sequence of file writes to a filesystem (file name to
content map); each write replaces the previous content of the file, as opening
a file in write mode truncates it (line 109). -/
def applyWrites (fs : Str → Option Str) : List (Str × Str) → (Str → Option Str)
  | [] => fs
  | w :: ws => applyWrites (fun name => if name = w.1 then some w.2 else fs name) ws

/-- Run the transform against a filesystem state: a completed run applies
its writes (with rendered content); a failed run leaves it untouched. -/
def runOnFs (input : Option (List Str)) (fs : Str → Option Str) : Str → Option Str :=
  match create_mapping_files input with
  | RunResult.completed ws => applyWrites fs (ws.map (fun p => (p.1, renderFile p.2)))
  | _ => fs

/-- The content last written to a file name by a sequence of writes, if any. -/
def lastWrite : List (Str × Str) → Str → Option Str
  | [], _ => none
  | w :: ws, name =>
    (lastWrite ws name).or (if name = w.1 then some w.2 else none)

/-- Look up the record list of key `k` in the group dictionary (Python dict
access `sublibraries[sublibrary_id]`). -/
def groupOf (subs : Groups) (k : Str) : List OutputRecord :=
  match subs.find? (fun p => p.1 == k) with
  | some p => p.2
  | none => []

/-- Follows the spec and the claims: a data row is valid when it has at
least 10 tab-separated fields, a non-empty `sample_id` (field 0) and a
non-empty `group_key` (field 1); `specRowKey` returns the group key of a row
exactly for valid rows. -/
def specRowKey (line : Str) : Option Str :=
  let cols := splitOnTab line
  if cols.length < 10 then none
  else if cols.getD 0 [] = [] then none
  else if cols.getD 1 [] = [] then none
  else some (cols.getD 1 [])

/-- The two records derived from one valid data line, in the order they are
appended: the 16S record (fields 3 and 5, suffix `_16S`) then the ITS1
record (fields 7 and 9, suffix `_ITS1`). -/
def mkRecords (line : Str) : List OutputRecord :=
  let columns := splitOnTab line
  [ { forward_tag := columns.getD 3 [], reverse_tag := columns.getD 5 [],
      sample_name := columns.getD 0 [] ++ suffix16S },
    { forward_tag := columns.getD 7 [], reverse_tag := columns.getD 9 [],
      sample_name := columns.getD 0 [] ++ suffixITS1 } ]

/-- The valid data lines assigned to group `k`, in input order. -/
def rowsFor (k : Str) (data : List Str) : List Str :=
  data.filter (fun l => decide (specRowKey l = some k))

/-- Insertion-ordered accumulation of the distinct group keys: the order in
which the dict at line 55 creates its keys. -/
def foldKeys (ks : List Str) (data : List Str) : List Str :=
  data.foldl
    (fun ks l =>
      match specRowKey l with
      | some k => if k ∈ ks then ks else ks ++ [k]
      | none => ks) ks

/-- The example data row used by the spec (claim C4). -/
def exampleRow : Str := "S1\tLIB01\tp1\tAAAA\tp2\tTTTT\tp3\tGGGG\tp4\tCCCC".toList

/-- A data line with a leading tab, separating the two stripping
behaviours (claim C8). -/
def leadingTabRow : Str := '\t' :: exampleRow

/-- Name suffix searched for in the archive listing (line 20 of
`analyze_rarefaction_depth.py`). -/
def freqCsvSuffix : Str := "sample-frequency-detail.csv".toList

/-- The function `extract_sample_stats` of `analyze_rarefaction_depth.py`:
the zip archive is modelled as its ordered name list paired with each
bytes of each member, and `readCsv` abstracts `pd.read_csv`.  The loop at lines
19-22 keeps the first name ending in `sample-frequency-detail.csv`; the
check `if data_file:` at line 24 is Python truthiness, false for `None`
and for an empty name. -/
def extract_sample_stats {α : Type} (readCsv : Str → α)
    (archive : List (Str × Str)) : Option α :=
  match archive.find? (fun e => decide (freqCsvSuffix <:+ e.1)) with
  | some e => if e.1 = [] then none else some (readCsv e.2)
  | none => none

/-! Helper lemmas about the splitting of a line into fields. -/

theorem splitOnTab_ne_nil (s : Str) : splitOnTab s ≠ [] := by
  cases s with
  | nil => simp [splitOnTab]
  | cons c rest =>
    simp only [splitOnTab]
    split <;> simp

theorem not_tab_mem_splitOnTab : ∀ (s : Str), ∀ f ∈ splitOnTab s, '\t' ∉ f := by
  intro s
  induction s with
  | nil =>
    intro f hf
    simp only [splitOnTab, List.mem_singleton] at hf
    simp [hf]
  | cons c rest ih =>
    intro f hf
    simp only [splitOnTab] at hf
    by_cases hc : c = '\t'
    · rw [if_pos hc] at hf
      rcases List.mem_cons.mp hf with h | h
      · simp [h]
      · exact ih f h
    · rw [if_neg hc] at hf
      rcases List.mem_cons.mp hf with h | h
      · subst h
        intro hmem
        rcases List.mem_cons.mp hmem with h | h
        · exact hc h.symm
        · have hhead : (splitOnTab rest).headI ∈ splitOnTab rest := by
            cases hr : splitOnTab rest with
            | nil => exact absurd hr (splitOnTab_ne_nil rest)
            | cons a l => simp
          exact ih _ hhead h
      · exact ih f (List.mem_of_mem_tail h)

theorem not_tab_getD_splitOnTab (s : Str) (i : Nat) :
    '\t' ∉ (splitOnTab s).getD i [] := by
  rw [List.getD_eq_getElem?_getD]
  cases hg : (splitOnTab s)[i]? with
  | none => simp
  | some f =>
    simpa using not_tab_mem_splitOnTab s f (List.getElem?_mem hg)

/-! Helper lemmas about group accumulation. -/

theorem processLine_eq (subs : Groups) (line : Str) :
    processLine subs line =
      match specRowKey line with
      | none => subs
      | some k => addToGroup subs k (mkRecords line) := by
  simp only [processLine, specRowKey, mkRecords]
  by_cases h10 : (splitOnTab line).length < 10
  · rw [if_pos h10, if_pos h10]
  · rw [if_neg h10, if_neg h10]
    by_cases h0 : (splitOnTab line).getD 0 [] = []
    · rw [if_pos (Or.inl h0), if_pos h0]
    · rw [if_neg h0]
      by_cases h1 : (splitOnTab line).getD 1 [] = []
      · rw [if_pos (Or.inr h1), if_pos h1]
      · rw [if_neg (not_or.mpr ⟨h0, h1⟩), if_neg h1]

theorem keys_addToGroup (subs : Groups) (k : Str) (rs : List OutputRecord) :
    (addToGroup subs k rs).map Prod.fst =
      if k ∈ subs.map Prod.fst then subs.map Prod.fst
      else subs.map Prod.fst ++ [k] := by
  induction subs with
  | nil => simp [addToGroup]
  | cons p t ih =>
    obtain ⟨k₀, rs₀⟩ := p
    by_cases hk : k₀ = k
    · subst hk
      simp [addToGroup]
    · have hne : ¬ k = k₀ := fun h => hk h.symm
      by_cases hm : k ∈ t.map Prod.fst
      · simp [addToGroup, hk, ih, hm, hne]
      · simp [addToGroup, hk, ih, hm, hne]

theorem groupOf_nil (k : Str) : groupOf [] k = [] := rfl

theorem groupOf_cons (k₀ : Str) (rs₀ : List OutputRecord) (t : Groups) (k : Str) :
    groupOf ((k₀, rs₀) :: t) k = if k₀ = k then rs₀ else groupOf t k := by
  by_cases h : k₀ = k
  · simp [groupOf, List.find?, h]
  · have hb : (k₀ == k) = false := by simpa using h
    simp [groupOf, List.find?, hb, h]

theorem groupOf_addToGroup_self (subs : Groups) (k : Str) (rs : List OutputRecord) :
    groupOf (addToGroup subs k rs) k = groupOf subs k ++ rs := by
  induction subs with
  | nil => simp [addToGroup, groupOf_cons, groupOf_nil]
  | cons p t ih =>
    obtain ⟨k₀, rs₀⟩ := p
    by_cases hk : k₀ = k
    · simp [addToGroup, if_pos hk, groupOf_cons, hk]
    · simp [addToGroup, if_neg hk, groupOf_cons, hk, ih]

theorem groupOf_addToGroup_of_ne (subs : Groups) (k k' : Str)
    (rs : List OutputRecord) (h : k' ≠ k) :
    groupOf (addToGroup subs k rs) k' = groupOf subs k' := by
  have hkk : ∀ k₀ : Str, k₀ = k → ¬ k₀ = k' := by
    rintro k₀ rfl hc
    exact h hc.symm
  induction subs with
  | nil =>
    simp [addToGroup, groupOf_cons, groupOf_nil, hkk k rfl]
  | cons p t ih =>
    obtain ⟨k₀, rs₀⟩ := p
    by_cases hk : k₀ = k
    · simp [addToGroup, if_pos hk, groupOf_cons, hkk k₀ hk]
    · by_cases hk' : k₀ = k'
      · simp only [addToGroup, if_neg hk]
        rw [groupOf_cons, groupOf_cons, if_pos hk', if_pos hk']
      · simp [addToGroup, if_neg hk, groupOf_cons, hk', ih]

/-! Invariants of the grouping pass. -/

theorem groupOf_foldl (data : List Str) (subs : Groups) (k : Str) :
    groupOf (data.foldl processLine subs) k =
      groupOf subs k ++ ((rowsFor k data).map mkRecords).flatten := by
  induction data generalizing subs with
  | nil => simp [rowsFor]
  | cons l t ih =>
    rw [List.foldl_cons, ih, processLine_eq]
    cases hk : specRowKey l with
    | none =>
      have hf : decide (specRowKey l = some k) = false := by simp [hk]
      simp [rowsFor, List.filter_cons, hf]
    | some k₁ =>
      by_cases hkk : k₁ = k
      · subst hkk
        have hf : decide (specRowKey l = some k₁) = true := by simp [hk]
        rw [groupOf_addToGroup_self]
        simp [rowsFor, List.filter_cons, hf, List.append_assoc]
      · have hf : decide (specRowKey l = some k) = false := by simp [hk, hkk]
        rw [groupOf_addToGroup_of_ne _ _ _ _ (fun h => hkk h.symm)]
        simp [rowsFor, List.filter_cons, hf]

theorem keys_foldl (data : List Str) (subs : Groups) :
    (data.foldl processLine subs).map Prod.fst =
      foldKeys (subs.map Prod.fst) data := by
  induction data generalizing subs with
  | nil => simp [foldKeys]
  | cons l t ih =>
    rw [List.foldl_cons, ih, processLine_eq]
    cases hk : specRowKey l with
    | none => simp [foldKeys, hk]
    | some k => simp [foldKeys, hk, keys_addToGroup]

theorem foldKeys_cons_none (ks : List Str) (l : Str) (t : List Str)
    (hspec : specRowKey l = none) : foldKeys ks (l :: t) = foldKeys ks t := by
  simp [foldKeys, hspec]

theorem foldKeys_cons_some (ks : List Str) (l : Str) (t : List Str) (k : Str)
    (hspec : specRowKey l = some k) :
    foldKeys ks (l :: t) =
      if k ∈ ks then foldKeys ks t else foldKeys (ks ++ [k]) t := by
  by_cases hm : k ∈ ks
  · simp [foldKeys, hspec, hm]
  · simp [foldKeys, hspec, hm]

theorem nodup_foldKeys (data : List Str) (ks : List Str) (h : ks.Nodup) :
    (foldKeys ks data).Nodup := by
  induction data generalizing ks with
  | nil => simpa [foldKeys]
  | cons l t ih =>
    cases hk : specRowKey l with
    | none =>
      rw [foldKeys_cons_none ks l t hk]
      exact ih ks h
    | some k =>
      rw [foldKeys_cons_some ks l t k hk]
      by_cases hm : k ∈ ks
      · simp only [if_pos hm]
        exact ih ks h
      · simp only [if_neg hm]
        refine ih _ ?_
        rw [List.nodup_append]
        exact ⟨h, List.nodup_singleton k, List.disjoint_singleton.mpr hm⟩

theorem toFinset_foldKeys (data : List Str) (ks : List Str) :
    (foldKeys ks data).toFinset =
      ks.toFinset ∪ (data.filterMap specRowKey).toFinset := by
  induction data generalizing ks with
  | nil => simp [foldKeys]
  | cons l t ih =>
    cases hk : specRowKey l with
    | none =>
      rw [foldKeys_cons_none ks l t hk, ih]
      simp [List.filterMap_cons, hk]
    | some k =>
      rw [foldKeys_cons_some ks l t k hk]
      by_cases hm : k ∈ ks
      · rw [if_pos hm, ih]
        ext x
        simp only [List.filterMap_cons, hk, Finset.mem_union, List.mem_toFinset,
          List.toFinset_cons, Finset.mem_insert]
        constructor
        · rintro (hx | hx)
          · exact Or.inl hx
          · exact Or.inr (Or.inr hx)
        · rintro (hx | rfl | hx)
          · exact Or.inl hx
          · exact Or.inl hm
          · exact Or.inr hx
      · rw [if_neg hm, ih]
        ext x
        simp only [List.filterMap_cons, hk, Finset.mem_union, List.mem_toFinset,
          List.toFinset_cons, Finset.mem_insert, List.mem_append, List.mem_singleton]
        tauto

theorem keys_buildSublibraries (data : List Str) :
    (buildSublibraries data).map Prod.fst = foldKeys [] data := by
  have h := keys_foldl data []
  simpa using h

theorem nodup_keys_buildSublibraries (data : List Str) :
    ((buildSublibraries data).map Prod.fst).Nodup := by
  rw [keys_buildSublibraries]
  exact nodup_foldKeys data [] List.nodup_nil

theorem length_buildSublibraries (data : List Str) :
    (buildSublibraries data).length = (data.filterMap specRowKey).toFinset.card := by
  have h1 : (buildSublibraries data).map Prod.fst = foldKeys [] data :=
    keys_buildSublibraries data
  have h2 : (foldKeys [] data).Nodup := nodup_foldKeys data [] List.nodup_nil
  have h3 : (foldKeys [] data).toFinset = (data.filterMap specRowKey).toFinset := by
    rw [toFinset_foldKeys]
    simp
  calc (buildSublibraries data).length
      = ((buildSublibraries data).map Prod.fst).length := (List.length_map _ _).symm
    _ = (foldKeys [] data).length := by rw [h1]
    _ = (foldKeys [] data).toFinset.card := (List.toFinset_card_of_nodup h2).symm
    _ = (data.filterMap specRowKey).toFinset.card := by rw [h3]

theorem groupOf_buildSublibraries (data : List Str) (k : Str) :
    groupOf (buildSublibraries data) k = ((rowsFor k data).map mkRecords).flatten := by
  have h := groupOf_foldl data [] k
  simpa [groupOf_nil] using h

/-! Lemmas about the key order and the sorting of the groups. -/

theorem strLe_total (a b : Str) : strLe a b = true ∨ strLe b a = true := by
  induction a generalizing b with
  | nil => exact Or.inl rfl
  | cons x s ih =>
    cases b with
    | nil => exact Or.inr rfl
    | cons y t =>
      by_cases h1 : x.toNat < y.toNat
      · exact Or.inl (by simp [strLe, h1])
      · by_cases h2 : y.toNat < x.toNat
        · exact Or.inr (by simp [strLe, h2])
        · rcases ih t with h | h
          · exact Or.inl (by simp [strLe, h1, h2, h])
          · exact Or.inr (by simp [strLe, h1, h2, h])

theorem strLe_trans : ∀ (a b c : Str),
    strLe a b = true → strLe b c = true → strLe a c = true := by
  intro a
  induction a with
  | nil => intro b c _ _; rfl
  | cons x s ih =>
    intro b c hab hbc
    cases b with
    | nil => exact absurd hab (by simp [strLe])
    | cons y t =>
      cases c with
      | nil => exact absurd hbc (by simp [strLe])
      | cons z u =>
        simp only [strLe] at hab hbc ⊢
        split_ifs at hab hbc ⊢ <;>
          first
            | rfl
            | (exact ih t u hab hbc)
            | (exfalso; omega)

theorem insertPair_perm (x : Str × List OutputRecord) (l : Groups) :
    (insertPair x l).Perm (x :: l) := by
  induction l with
  | nil => exact List.Perm.refl _
  | cons y t ih =>
    by_cases h : strLe x.1 y.1
    · rw [insertPair, if_pos h]
    · rw [insertPair, if_neg h]
      exact List.Perm.trans (ih.cons y) (List.Perm.swap x y t)

theorem sortPairs_perm (l : Groups) : (sortPairs l).Perm l := by
  induction l with
  | nil => exact List.Perm.refl _
  | cons x t ih =>
    exact List.Perm.trans (insertPair_perm x (sortPairs t)) (ih.cons x)

theorem pairwise_insertPair (x : Str × List OutputRecord) (l : Groups)
    (h : l.Pairwise (fun p q => strLe p.1 q.1 = true)) :
    (insertPair x l).Pairwise (fun p q => strLe p.1 q.1 = true) := by
  induction l with
  | nil => simp [insertPair]
  | cons y t ih =>
    rcases List.pairwise_cons.mp h with ⟨hy, ht⟩
    by_cases hle : strLe x.1 y.1
    · rw [insertPair, if_pos hle]
      refine List.pairwise_cons.mpr ⟨?_, h⟩
      intro q hq
      rcases List.mem_cons.mp hq with rfl | hq
      · exact hle
      · exact strLe_trans _ _ _ hle (hy q hq)
    · rw [insertPair, if_neg hle]
      refine List.pairwise_cons.mpr ⟨?_, ih ht⟩
      intro q hq
      rcases List.mem_cons.mp ((insertPair_perm x t).mem_iff.mp hq) with hqx | hq
      · rcases strLe_total x.1 y.1 with h₁ | h₁
        · exact absurd h₁ hle
        · rw [hqx]
          exact h₁
      · exact hy q hq

theorem pairwise_sortPairs (l : Groups) :
    (sortPairs l).Pairwise (fun p q => strLe p.1 q.1 = true) := by
  induction l with
  | nil => simp [sortPairs]
  | cons x t ih => exact pairwise_insertPair x (sortPairs t) ih

theorem groupOf_eq_of_mem (subs : Groups) (k : Str) (rs : List OutputRecord)
    (hnd : (subs.map Prod.fst).Nodup) (hmem : (k, rs) ∈ subs) :
    groupOf subs k = rs := by
  induction subs with
  | nil => cases hmem
  | cons p t ih =>
    obtain ⟨k₀, rs₀⟩ := p
    rw [List.map_cons] at hnd
    rcases List.nodup_cons.mp hnd with ⟨hnotin, hnd₂⟩
    rcases List.mem_cons.mp hmem with h | h
    · rw [groupOf_cons, if_pos ((congrArg Prod.fst h).symm)]
      exact (congrArg Prod.snd h).symm
    · have hk : k₀ ≠ k := by
        intro hc
        have hmemk : k ∈ t.map Prod.fst := List.mem_map.mpr ⟨(k, rs), h, rfl⟩
        exact hnotin (hc ▸ hmemk)
      rw [groupOf_cons, if_neg hk]
      exact ih hnd₂ h

/-! Lemmas about applying writes to a filesystem. -/

theorem applyWrites_lookup (ws : List (Str × Str)) (fs : Str → Option Str)
    (name : Str) :
    applyWrites fs ws name = (lastWrite ws name).or (fs name) := by
  induction ws generalizing fs with
  | nil => simp [applyWrites, lastWrite]
  | cons w t ih =>
    rw [applyWrites, ih, lastWrite, Option.or_assoc]
    congr 1
    by_cases hw : name = w.1
    · simp [hw]
    · simp [hw]

theorem applyWrites_idem (ws : List (Str × Str)) (fs : Str → Option Str) :
    applyWrites (applyWrites fs ws) ws = applyWrites fs ws := by
  funext name
  rw [applyWrites_lookup, applyWrites_lookup]
  cases lastWrite ws name with
  | some c => rfl
  | none => rfl

/-! Characterisation of the output files of a completed run. -/

theorem mem_outputWrites (rest : List Str) (fname : Str) (flines : List Str)
    (h : (fname, flines) ∈ outputWrites rest) :
    ∃ k, fname = k ++ tagsSuffix ∧
      flines = (((rowsFor k (dataLines rest)).map mkRecords).flatten).map renderRecord := by
  rcases List.mem_map.mp h with ⟨p, hp, heq⟩
  obtain ⟨k, rs⟩ := p
  have hmem : (k, rs) ∈ buildSublibraries (dataLines rest) :=
    (sortPairs_perm (buildSublibraries (dataLines rest))).mem_iff.mp hp
  have hrs : rs = ((rowsFor k (dataLines rest)).map mkRecords).flatten := by
    have h1 := groupOf_eq_of_mem _ _ _ (nodup_keys_buildSublibraries _) hmem
    rw [groupOf_buildSublibraries] at h1
    exact h1.symm
  have hf : fname = k ++ tagsSuffix := (congrArg Prod.fst heq).symm
  have hl : flines = rs.map renderRecord := (congrArg Prod.snd heq).symm
  exact ⟨k, hf, by rw [hl, hrs]⟩

theorem length_mkRecords (l : Str) : (mkRecords l).length = 2 := rfl

theorem sum_length_mkRecords (xs : List Str) :
    (List.map List.length (xs.map mkRecords)).sum = 2 * xs.length := by
  induction xs with
  | nil => simp
  | cons a t ih =>
    simp only [List.map_cons, List.sum_cons, length_mkRecords, ih, List.length_cons]
    omega

/-! The claims. -/

/-- C1: for every input table, the number of output files created by
`create_mapping_files` equals the number of distinct non-empty `group_key`
(`sublibrary_id`) values occurring among data rows that have at least 10
tab-separated fields and a non-empty `sample_id`; rows failing these
conditions create no group and hence no file.  The first conjunct records
that the file names are pairwise distinct, so the writes are so many
distinct files. -/
theorem C1_file_count (hd : Str) (rest : List Str) :
    ((runWrites (create_mapping_files (some (hd :: rest)))).map Prod.fst).Nodup ∧
      (runWrites (create_mapping_files (some (hd :: rest)))).length =
        ((dataLines rest).filterMap specRowKey).toFinset.card := by
  constructor
  · show ((outputWrites rest).map Prod.fst).Nodup
    have h1 : (outputWrites rest).map Prod.fst =
        ((sortedGroups rest).map Prod.fst).map (fun k => k ++ tagsSuffix) := by
      simp [outputWrites, List.map_map]
    rw [h1]
    apply List.Nodup.map (List.append_left_injective tagsSuffix)
    have hperm : ((buildSublibraries (dataLines rest)).map Prod.fst).Perm
        ((sortedGroups rest).map Prod.fst) :=
      ((sortPairs_perm (buildSublibraries (dataLines rest))).map Prod.fst).symm
    exact hperm.nodup (nodup_keys_buildSublibraries _)
  · show (outputWrites rest).length = _
    rw [outputWrites, List.length_map, sortedGroups,
      (sortPairs_perm (buildSublibraries (dataLines rest))).length_eq]
    exact length_buildSublibraries _

/-- C2: for every group produced from an input table, the number of lines
written to the output file of that group is exactly twice the number of valid
rows (at least 10 fields, non-empty `sample_id` and `group_key`) whose
`group_key` equals the key of that group. -/
theorem C2_line_count (hd : Str) (rest : List Str) (fname : Str) (flines : List Str)
    (h : (fname, flines) ∈ runWrites (create_mapping_files (some (hd :: rest)))) :
    ∃ k, fname = k ++ tagsSuffix ∧
      flines.length = 2 * (rowsFor k (dataLines rest)).length := by
  rcases mem_outputWrites rest fname flines h with ⟨k, hf, hl⟩
  refine ⟨k, hf, ?_⟩
  rw [hl, List.length_map, List.length_flatten]
  exact sum_length_mkRecords _

/-- C3: within each output file, records appear in the same relative order
as the source rows of that group appeared in the input, and for each source
row the 16S record (fields 3 and 5, suffix `_16S`) immediately precedes the
ITS1 record (fields 7 and 9, suffix `_ITS1`) derived from the same row:
the lines of the file are the concatenation, over the rows of the group in input
order, of the rendered record pair of each row. -/
theorem C3_order (hd : Str) (rest : List Str) (fname : Str) (flines : List Str)
    (h : (fname, flines) ∈ runWrites (create_mapping_files (some (hd :: rest)))) :
    ∃ k, fname = k ++ tagsSuffix ∧
      flines = ((rowsFor k (dataLines rest)).map
        (fun l => (mkRecords l).map renderRecord)).flatten := by
  rcases mem_outputWrites rest fname flines h with ⟨k, hf, hl⟩
  refine ⟨k, hf, ?_⟩
  rw [hl, List.map_flatten, List.map_map]
  rfl

/-- C4: for the single input data row
`S1<TAB>LIB01<TAB>p1<TAB>AAAA<TAB>p2<TAB>TTTT<TAB>p3<TAB>GGGG<TAB>p4<TAB>CCCC`
after a header line, the transform produces exactly one group `LIB01` whose
output file is named `LIB01_tags.tsv` and whose content is exactly the two
lines `AAAA\tTTTT\tS1_16S` and `GGGG\tCCCC\tS1_ITS1` in that order. -/
theorem C4_example (hd : Str) :
    create_mapping_files (some [hd, exampleRow]) =
      RunResult.completed [("LIB01_tags.tsv".toList,
        ["AAAA\tTTTT\tS1_16S".toList, "GGGG\tCCCC\tS1_ITS1".toList])] := by
  show RunResult.completed (outputWrites [exampleRow]) = _
  decide

/-- C5: running the transform twice with the same input file and output
directory yields byte-identical output files: the second run overwrites
each file produced by the first run with identical content (writes replace
file contents, they do not append), and the files are written in ascending
group-key order. -/
theorem C5_idempotent :
    (∀ input fs, runOnFs input (runOnFs input fs) = runOnFs input fs) ∧
      (∀ rest, outputWrites rest =
        (sortedGroups rest).map (fun p => (p.1 ++ tagsSuffix, p.2.map renderRecord))) ∧
      (∀ rest, ((sortedGroups rest).map Prod.fst).Pairwise
        (fun a b => strLe a b = true)) := by
  refine ⟨?_, fun rest => rfl, ?_⟩
  · intro input fs
    unfold runOnFs
    cases h : create_mapping_files input with
    | missingInput => rfl
    | indexError => rfl
    | completed ws => exact applyWrites_idem _ _
  · intro rest
    rw [List.pairwise_map]
    exact pairwise_sortPairs (buildSublibraries (dataLines rest))

/-- C6: when the input path does not exist, `create_mapping_files` reports
the missing input and returns without raising, writes no output files,
leaves the filesystem untouched, and does not create the output directory
(directory creation happens only after the input file is read). -/
theorem C6_missing_input :
    create_mapping_files none = RunResult.missingInput ∧
      runWrites (create_mapping_files none) = [] ∧
      createsOutputDir (create_mapping_files none) = false ∧
      ∀ fs, runOnFs none fs = fs := by
  exact ⟨rfl, rfl, rfl, fun fs => rfl⟩

/-- C7 counterexample: an input file that is present but completely empty
(no lines at all) does not complete without error: `lines[0]` raises an
uncaught IndexError before any processing, so the run is not the
error-free zero-file completion the claim asserts. -/
theorem C7_counterexample :
    create_mapping_files (some []) = RunResult.indexError ∧
      create_mapping_files (some []) ≠ RunResult.completed [] := by
  exact ⟨rfl, by decide⟩

/-- C7 amended: an input file whose lines after the header are all blank
(in particular a file with only a header line) completes with zero groups,
zero output files and no error; but an input file with no lines at all
does not complete: it raises an uncaught IndexError at `lines[0]`. -/
theorem C7_amended :
    (∀ hd rest, (∀ l ∈ rest, pyStrip l = []) →
        create_mapping_files (some (hd :: rest)) = RunResult.completed []) ∧
      create_mapping_files (some []) = RunResult.indexError := by
  constructor
  · intro hd rest h
    show RunResult.completed (outputWrites rest) = _
    have hdl : dataLines rest = [] := by
      rw [dataLines, List.filterMap_eq_nil_iff]
      intro l hl
      simp [h l hl]
    rw [outputWrites, sortedGroups, hdl]
    rfl
  · rfl

theorem C7_amended_witness :
    create_mapping_files (some ["header".toList, "  ".toList]) =
      RunResult.completed [] :=
  C7_amended.1 ("header".toList) ["  ".toList] (by decide)

/-- C8 counterexample: the code strips leading whitespace too (Python
`str.strip()` at line 34 trims both ends), so on a line with a leading tab
the fields actually used differ from the fields of the line with only
trailing whitespace removed: the leading empty field is dropped and every
position shifts, which here turns an invalid row (empty `sample_id` in the
trailing-trim reading) into a valid row with key `LIB01`. -/
theorem C8_counterexample :
    dataLines [leadingTabRow] = [pyStrip leadingTabRow] ∧
      splitOnTab (pyStrip leadingTabRow) ≠ splitOnTab (pyRstrip leadingTabRow) ∧
      specRowKey (pyStrip leadingTabRow) = some ("LIB01".toList) ∧
      specRowKey (pyRstrip leadingTabRow) = none := by
  exact ⟨by decide, by decide, by decide, by decide⟩

/-- C8 amended: in step 1 each input line is processed after trimming both
leading and trailing whitespace (and blank lines are dropped), so leading
whitespace on a line is removed rather than preserved: prepending
whitespace to a line does not give it an extra empty leading field — the
processed line and its tab-separated fields equal those of the line
without its leading whitespace. -/
theorem C8_amended (ws l : Str) (h : ∀ c ∈ ws, isPySpace c = true) :
    pyStrip (ws ++ l) = pyStrip l ∧
      splitOnTab (pyStrip (ws ++ l)) = splitOnTab (pyStrip l) := by
  have hs : pyStrip (ws ++ l) = pyStrip l := by
    unfold pyStrip
    congr 1
    rw [List.dropWhile_append]
    have hws : List.dropWhile isPySpace ws = [] := List.dropWhile_eq_nil_iff.mpr h
    simp [hws]
  exact ⟨hs, by rw [hs]⟩

theorem C8_amended_witness :
    pyStrip (['\t'] ++ exampleRow) = pyStrip exampleRow ∧
      splitOnTab (pyStrip (['\t'] ++ exampleRow)) = splitOnTab (pyStrip exampleRow) :=
  C8_amended ['\t'] exampleRow (by decide)

/-- C9: every line of every output file contains exactly two tab
characters, i.e. exactly three tab-separated columns: `forward_tag`,
`reverse_tag` and `sample_id` are fields produced by splitting the input
line on tab, so none of them can contain a tab. -/
theorem C9_two_tabs (input : Option (List Str)) (fname : Str) (flines : List Str)
    (hmem : (fname, flines) ∈ runWrites (create_mapping_files input))
    (line : Str) (hline : line ∈ flines) :
    line.count '\t' = 2 := by
  cases input with
  | none => exact absurd hmem (List.not_mem_nil _)
  | some lines =>
    cases lines with
    | nil => exact absurd hmem (List.not_mem_nil _)
    | cons hd rest =>
      rcases mem_outputWrites rest fname flines hmem with ⟨k, _, hl⟩
      subst hl
      rcases List.mem_map.mp hline with ⟨r, hr, hrl⟩
      rcases List.mem_flatten.mp hr with ⟨rs, hrs, hrrs⟩
      rcases List.mem_map.mp hrs with ⟨l₀, hl₀, hrs0⟩
      subst hrs0
      have hsuf16 : '\t' ∉ suffix16S := by decide
      have hsufITS : '\t' ∉ suffixITS1 := by decide
      have htabs : '\t' ∉ r.forward_tag ∧ '\t' ∉ r.reverse_tag ∧
          '\t' ∉ r.sample_name := by
        rcases List.mem_cons.mp hrrs with hre | hre
        · subst hre
          refine ⟨not_tab_getD_splitOnTab l₀ 3, not_tab_getD_splitOnTab l₀ 5, ?_⟩
          intro hc
          rcases List.mem_append.mp hc with hc | hc
          · exact not_tab_getD_splitOnTab l₀ 0 hc
          · exact hsuf16 hc
        · rcases List.mem_cons.mp hre with hre | hre
          · subst hre
            refine ⟨not_tab_getD_splitOnTab l₀ 7, not_tab_getD_splitOnTab l₀ 9, ?_⟩
            intro hc
            rcases List.mem_append.mp hc with hc | hc
            · exact not_tab_getD_splitOnTab l₀ 0 hc
            · exact hsufITS hc
          · cases hre
      have h1 : List.count '\t' r.forward_tag = 0 := List.count_eq_zero.mpr htabs.1
      have h2 : List.count '\t' r.reverse_tag = 0 := List.count_eq_zero.mpr htabs.2.1
      have h3 : List.count '\t' r.sample_name = 0 := List.count_eq_zero.mpr htabs.2.2
      rw [← hrl]
      simp [renderRecord, List.count_append, List.count_cons, h1, h2, h3]

theorem C9_witness :
    (("LIB01_tags.tsv".toList,
        ["AAAA\tTTTT\tS1_16S".toList, "GGGG\tCCCC\tS1_ITS1".toList]) ∈
        runWrites (create_mapping_files (some ["h".toList, exampleRow]))) ∧
      ("AAAA\tTTTT\tS1_16S".toList).count '\t' = 2 :=
  ⟨by decide,
    C9_two_tabs (some ["h".toList, exampleRow]) ("LIB01_tags.tsv".toList)
      (["AAAA\tTTTT\tS1_16S".toList, "GGGG\tCCCC\tS1_ITS1".toList]) (by decide)
      ("AAAA\tTTTT\tS1_16S".toList) (by decide)⟩

/-- C10: `extract_sample_stats` returns `none` (after printing a
diagnostic) if and only if the file listing of the archive contains no name
ending in `sample-frequency-detail.csv`; otherwise it reads and returns
the table parsed from the first such name in archive listing order. -/
theorem C10_extract {α : Type} (readCsv : Str → α) (archive : List (Str × Str)) :
    (extract_sample_stats readCsv archive = none ↔
      ∀ e ∈ archive, ¬ freqCsvSuffix <:+ e.1) ∧
      ∀ pre e post, archive = pre ++ e :: post →
        (∀ x ∈ pre, ¬ freqCsvSuffix <:+ x.1) →
        freqCsvSuffix <:+ e.1 →
        extract_sample_stats readCsv archive = some (readCsv e.2) := by
  have hne : ∀ s : Str, freqCsvSuffix <:+ s → ¬ s = [] := by
    intro s hs hnil
    subst hnil
    rcases hs with ⟨t, ht⟩
    rcases List.append_eq_nil.mp ht with ⟨_, hsufnil⟩
    exact absurd hsufnil (by decide)
  constructor
  · constructor
    · intro h e he hsuf
      have hex : ∃ x ∈ archive, (fun e => decide (freqCsvSuffix <:+ e.1)) x = true :=
        ⟨e, he, by simpa using hsuf⟩
      rcases Option.isSome_iff_exists.mp (List.find?_isSome.mpr hex) with ⟨e₁, heq⟩
      have hp := List.find?_some heq
      have hp₁ : freqCsvSuffix <:+ e₁.1 := by simpa using hp
      have h₂ : (if e₁.1 = [] then none else some (readCsv e₁.2)) = (none : Option α) := by
        unfold extract_sample_stats at h
        rw [heq] at h
        exact h
      rw [if_neg (hne e₁.1 hp₁)] at h₂
      cases h₂
    · intro h
      have hf : archive.find? (fun e => decide (freqCsvSuffix <:+ e.1)) = none :=
        List.find?_eq_none.mpr (by
          intro x hx
          simpa using h x hx)
      unfold extract_sample_stats
      rw [hf]
  · intro pre e post harch hpre hsuf
    have hfpre : pre.find? (fun e => decide (freqCsvSuffix <:+ e.1)) = none :=
      List.find?_eq_none.mpr (by
        intro x hx
        simpa using hpre x hx)
    have hfe : (e :: post).find? (fun e => decide (freqCsvSuffix <:+ e.1)) = some e :=
      List.find?_cons_of_pos post (by simpa using hsuf)
    have hf : archive.find? (fun e => decide (freqCsvSuffix <:+ e.1)) = some e := by
      rw [harch, List.find?_append, hfpre, hfe]
      rfl
    unfold extract_sample_stats
    rw [hf]
    show (if e.1 = [] then none else some (readCsv e.2)) = some (readCsv e.2)
    rw [if_neg (hne e.1 hsuf)]

theorem C10_extract_witness :
    extract_sample_stats (fun s => s)
        [("a.txt".toList, "x".toList),
          ("data/sample-frequency-detail.csv".toList, "tbl".toList)] =
      some ("tbl".toList) :=
  (C10_extract (fun s => s)
      [("a.txt".toList, "x".toList),
        ("data/sample-frequency-detail.csv".toList, "tbl".toList)]).2
    [("a.txt".toList, "x".toList)]
    ("data/sample-frequency-detail.csv".toList, "tbl".toList) [] rfl
    (by decide) (by decide)

theorem C2_witness :
    (("LIB01_tags.tsv".toList,
        ["AAAA\tTTTT\tS1_16S".toList, "GGGG\tCCCC\tS1_ITS1".toList]) ∈
        runWrites (create_mapping_files (some ["h".toList, exampleRow]))) ∧
      ∃ k, "LIB01_tags.tsv".toList = k ++ tagsSuffix ∧
        (["AAAA\tTTTT\tS1_16S".toList, "GGGG\tCCCC\tS1_ITS1".toList] : List Str).length =
          2 * (rowsFor k (dataLines [exampleRow])).length :=
  ⟨by decide,
    C2_line_count ("h".toList) [exampleRow] ("LIB01_tags.tsv".toList)
      (["AAAA\tTTTT\tS1_16S".toList, "GGGG\tCCCC\tS1_ITS1".toList]) (by decide)⟩

theorem C3_witness :
    (("LIB01_tags.tsv".toList,
        ["AAAA\tTTTT\tS1_16S".toList, "GGGG\tCCCC\tS1_ITS1".toList]) ∈
        runWrites (create_mapping_files (some ["h".toList, exampleRow]))) ∧
      ∃ k, "LIB01_tags.tsv".toList = k ++ tagsSuffix ∧
        (["AAAA\tTTTT\tS1_16S".toList, "GGGG\tCCCC\tS1_ITS1".toList] : List Str) =
          ((rowsFor k (dataLines [exampleRow])).map
            (fun l => (mkRecords l).map renderRecord)).flatten :=
  ⟨by decide,
    C3_order ("h".toList) [exampleRow] ("LIB01_tags.tsv".toList)
      (["AAAA\tTTTT\tS1_16S".toList, "GGGG\tCCCC\tS1_ITS1".toList]) (by decide)⟩

end CacaoFM
